import Mathlib

/-!
The Markdown preview tool `mdp` (`main.go`)

A shallow embedding of `parseContent`, `saveHTML`, `preview` and `run`.

* Go `string` values that name things (paths, commands, error texts) are `String`;
  `[]byte` values and the text that flows into the document are `List Char`
  (a `nil` slice is `[]`).
* A Go `error` is `Option String`: `none` is `nil`.
* Everything outside `main.go` (operating system, `blackfriday`, `bluemonday`,
  a user supplied template) is a field of `Host` or a small model of the library
  call, stated next to its definition.
* Effects are recorded in a `World`: the files on disk and a trace of events
  in the order in which they happened.
-/

namespace Mdp

/-! ## Data model -/

/-- Go `error`: `none` is `nil`. -/
abbrev GoError := Option String

/-- The `content` struct handed to the template. `Body` has type `template.HTML`. -/
structure content where
  Title : String
  Body : List Char
  FileName : String

/-- System calls that may fail for reasons outside the program (permissions, full disk). -/
inductive Syscall
  | readFile (name : String)
  | createTemp (name : String)
  | close (name : String)
  | writeFile (name : String)
  | remove (name : String)
  deriving DecidableEq

/-- Effects of the calls that succeeded, in program order. `preview` marks entry
into `preview`; `start` is a child process that was really started. -/
inductive Event
  | createTemp (name : String)
  | close (name : String)
  | fprintln (bytes : List Char)
  | writeFile (name : String) (data : List Char)
  | preview (fname : String)
  | lookPath (file : String)
  | start (path : String) (args : List String)
  | sleep (ns : Nat)
  | remove (name : String)
  deriving DecidableEq

/-- Files on disk and the trace of effects so far (oldest first). -/
structure World where
  files : String → Option (List Char)
  trace : List Event

/-- What the program cannot control: platform, libraries, failures of system calls. -/
structure Host where
  /-- Value of `runtime.GOOS`. -/
  GOOS : String
  /-- Value of `os.TempDir()`, with its trailing path separator. -/
  tempDir : String
  /-- The random name parts drawn by `os.CreateTemp`, by attempt. -/
  nextRandom : Nat → String
  /-- An injected failure of a system call, if any. -/
  fault : Syscall → GoError
  /-- Function `blackfriday.Run`. -/
  blackfridayRun : List Char → List Char
  /-- Function `bluemonday.UGCPolicy().SanitizeBytes`. -/
  sanitizeBytes : List Char → List Char
  /-- Parse error of `html/template` on the text of a user template, if any. -/
  parseError : List Char → GoError
  /-- Result of `Execute` on a user template: the bytes written to the buffer
  and the error that stopped execution, if any. -/
  executeFile : List Char → content → List Char × GoError
  /-- Function `exec.LookPath`. -/
  lookPath : String → Except String String
  /-- Error of `Cmd.Start` (the fork and exec of the child), if any: then no
  child runs. -/
  start : String → List String → GoError
  /-- Error reported by `Cmd.Wait` once the child has been started, if any. -/
  wait : String → List String → GoError
  /-- What a failing `os.WriteFile` leaves behind: `none` when the file could not
  be opened and is as it was, `some k` when it was truncated and `k` bytes of the
  data reached it. -/
  shortWrite : String → Option Nat

/-! ## The built-in template and `html/template` on it -/

/-- The constant `defaultTemplate` of `main.go`. -/
def defaultTemplate : String :=
  "<!DOCTYPE html>\n<html>\n<head>\n    <meta http-equiv=\"content-type\" content=\"text/html; charset=utf-8\">\n    <title>Markdown Preview Tool</title>\n</head>\n<body>\nPreviewing: \x7b\x7b .FileName  \x7d\x7d\n\x7b\x7b .Body \x7d\x7d\n</body>\n</html>\n"

/-- Nodes of the parsed built-in template: literal text and its two actions. -/
inductive Node
  | text (s : String)
  | fileName
  | body
  deriving DecidableEq

/-- The template text a node was parsed from. -/
def Node.source : Node → String
  | .text s => s
  | .fileName => "\x7b\x7b .FileName  \x7d\x7d"
  | .body => "\x7b\x7b .Body \x7d\x7d"

/-- Text of the built-in template before the file name action. -/
def skeletonHead : String :=
  "<!DOCTYPE html>\n<html>\n<head>\n    <meta http-equiv=\"content-type\" content=\"text/html; charset=utf-8\">\n    <title>Markdown Preview Tool</title>\n</head>\n<body>\nPreviewing: "

/-- Text of the built-in template after the body action. -/
def skeletonTail : String := "\n</body>\n</html>\n"

/-- Parse tree of `defaultTemplate`. -/
def defaultTree : List Node :=
  [.text skeletonHead, .fileName, .text "\n", .body, .text skeletonTail]

/-- The table `htmlReplacementTable` of `html/template`. -/
def htmlReplacementTable (r : Char) : Option String :=
  if r = Char.ofNat 0 then some "\uFFFD"
  else if r = Char.ofNat 34 then some "&#34;"
  else if r = '&' then some "&amp;"
  else if r = Char.ofNat 39 then some "&#39;"
  else if r = '+' then some "&#43;"
  else if r = '<' then some "&lt;"
  else if r = '>' then some "&gt;"
  else none

/-- The function `htmlReplacer` of `html/template` with `htmlReplacementTable`
and `badRunes = true`: a rune with a table entry is replaced by it, every other
rune is copied. -/
def htmlReplacer : List Char → List Char
  | [] => []
  | r :: s =>
    match htmlReplacementTable r with
    | some repl => repl.toList ++ htmlReplacer s
    | none => r :: htmlReplacer s

/-- The escaper `html/template` attaches to an action in HTML text context,
applied to a plain `string`. -/
def htmlEscaper (s : String) : List Char := htmlReplacer s.toList

/-- Output of one node. A `string` field goes through `htmlEscaper`; a
`template.HTML` field is written as it is. -/
def Node.exec (c : content) : Node → List Char
  | .text s => s.toList
  | .fileName => htmlEscaper c.FileName
  | .body => c.Body

/-- Output of a list of nodes, in order. -/
def execNodes (c : content) : List Node → List Char
  | [] => []
  | n :: ns => n.exec c ++ execNodes c ns

/-- A parsed template: the built-in one, or a user template kept as its text
and run by the host's engine. -/
inductive Template
  | tree (nodes : List Node)
  | file (text : List Char)

/-- Call `template.New("mdp").Parse(defaultTemplate)`: the constant is well formed. -/
def templateParseDefault : Except String Template := .ok (.tree defaultTree)

/-- Call `Execute` into a fresh `bytes.Buffer`: the bytes written and the error.
Writing to the buffer cannot fail, and every action of the built-in template
names a field of `content`, so the built-in template always runs to its end. -/
def templateExecute (h : Host) (t : Template) (c : content) : List Char × GoError :=
  match t with
  | .tree nodes => (execNodes c nodes, none)
  | .file text => h.executeFile text c

/-! ## Library calls on the world -/

/-- Append an event to the trace. -/
def World.log (w : World) (e : Event) : World :=
  { w with trace := w.trace ++ [e] }

/-- Set the content of one file. -/
def World.put (w : World) (name : String) (data : List Char) : World :=
  { w with files := fun n => if n = name then some data else w.files n }

/-- Delete one file. -/
def World.delete (w : World) (name : String) : World :=
  { w with files := fun n => if n = name then none else w.files n }

/-- Call `os.ReadFile`. -/
def osReadFile (h : Host) (w : World) (name : String) : Except String (List Char) :=
  match h.fault (.readFile name) with
  | some e => .error e
  | none =>
    match w.files name with
    | none => .error ("open " ++ name ++ ": no such file or directory")
    | some data => .ok data

/-- Call `template.ParseFiles(tFname)`: read the file, then parse its text. -/
def templateParseFiles (h : Host) (w : World) (tFname : String) : Except String Template :=
  match osReadFile h w tFname with
  | .error e => .error e
  | .ok text =>
    match h.parseError text with
    | some e => .error e
    | none => .ok (.file text)

/-- The split of a `CreateTemp` pattern at its last `*`: `none` when there is no `*`. -/
def splitLastStar : List Char → Option (List Char × List Char)
  | [] => none
  | c :: cs =>
    match splitLastStar cs with
    | some (p, s) => some (c :: p, s)
    | none => if c = '*' then some ([], cs) else none

/-- The function `prefixAndSuffix` of package `os`. The pattern of the one call
in `main.go` has no path separator, so that error is left out. -/
def prefixAndSuffix (pattern : String) : String × String :=
  match splitLastStar pattern.toList with
  | some (p, s) => (String.mk p, String.mk s)
  | none => (pattern, "")

/-- The loop of `os.CreateTemp`: draw a name, create the file exclusively, and
on a name that exists draw again, for at most `left` attempts. -/
def createTempLoop (h : Host) (w : World) (pre suf : String) :
    (left : Nat) → (attempt : Nat) → Except String String × World
  | 0, _ => (.error ("createtemp " ++ pre ++ "*" ++ suf ++ ": file exists"), w)
  | left + 1, attempt =>
    let name := pre ++ h.nextRandom attempt ++ suf
    match w.files name with
    | some _ => createTempLoop h w pre suf left (attempt + 1)
    | none =>
      match h.fault (.createTemp name) with
      | some e => (.error e, w)
      | none => (.ok name, (w.put name []).log (.createTemp name))

/-- Call `ioutil.TempFile(dir, pattern)`; the result is the name of the open file. -/
def ioutilTempFile (h : Host) (dir pattern : String) (w : World) :
    Except String String × World :=
  let dir := if dir = "" then h.tempDir else dir
  let ps := prefixAndSuffix pattern
  createTempLoop h w (dir ++ ps.1) ps.2 10000 0

/-- Method `Close` of the temporary file. -/
def fileClose (h : Host) (name : String) (w : World) : GoError × World :=
  match h.fault (.close name) with
  | some e => (some e, w)
  | none => (none, w.log (.close name))

/-- Call `fmt.Fprintln(out, s)`: the bytes handed to `out`. -/
def fmtFprintln (s : String) (w : World) : World :=
  w.log (.fprintln (s.toList ++ ['\n']))

/-- Call `os.WriteFile(name, data, 0644)`: open with truncation, write, close.
When it fails the file is as it was if the open failed, and otherwise holds the
part of the data that was written. -/
def osWriteFile (h : Host) (name : String) (data : List Char) (w : World) : GoError × World :=
  match h.fault (.writeFile name) with
  | some e =>
    match h.shortWrite name with
    | none => (some e, w)
    | some k => (some e, w.put name (data.take k))
  | none => (none, (w.put name data).log (.writeFile name data))

/-- Call `os.Remove(name)`. -/
def osRemove (h : Host) (name : String) (w : World) : GoError × World :=
  match h.fault (.remove name) with
  | some e => (some e, w)
  | none =>
    match w.files name with
    | none => (some ("remove " ++ name ++ ": no such file or directory"), w)
    | some _ => (none, (w.delete name).log (.remove name))

/-- Call `exec.LookPath(file)`. -/
def execLookPath (h : Host) (file : String) (w : World) : Except String String × World :=
  (h.lookPath file, w.log (.lookPath file))

/-- Call `exec.Command(path, args...).Run()`, that is `Start` and then `Wait`:
when `Start` fails no child runs and its error is returned; otherwise the child
is started and waited for. What the child does to the files is outside the model. -/
def execCommandRun (h : Host) (path : String) (args : List String) (w : World) :
    GoError × World :=
  match h.start path args with
  | some e => (some e, w)
  | none => (h.wait path args, w.log (.start path args))

/-- The constant `time.Second`, in nanoseconds. -/
def timeSecond : Nat := 1000000000

/-- Call `time.Sleep(d)`. -/
def timeSleep (d : Nat) (w : World) : World :=
  w.log (.sleep d)

/-! ## The functions of `main.go` -/

/-- Function `parseContent`. Reads the world only for a user template. -/
def parseContent (h : Host) (w : World) (input : List Char) (tFname fileName : String) :
    List Char × GoError :=
  let output := h.blackfridayRun input
  let body := h.sanitizeBytes output
  match templateParseDefault with
  | .error e => ([], some e)
  | .ok t =>
    match (if tFname ≠ "" then templateParseFiles h w tFname else .ok t) with
    | .error e => ([], some e)
    | .ok t =>
      let c : content := { Title := "Markdown Preview Tool", Body := body, FileName := fileName }
      match templateExecute h t c with
      | (_, some e) => ([], some e)
      | (buffer, none) => (buffer, none)

/-- Function `saveHTML`. -/
def saveHTML (h : Host) (outFname : String) (data : List Char) (w : World) : GoError × World :=
  osWriteFile h outFname data w

/-- The `switch runtime.GOOS` of `preview`: command name and leading parameters. -/
def launcher (goos : String) : Option (String × List String) :=
  if goos = "windows" then some ("cmd.exe", ["/C", "start"])
  else if goos = "linux" then some ("xdg-open", [])
  else if goos = "darwin" then some ("open", [])
  else none

/-- Function `preview`. -/
def preview (h : Host) (fname : String) (w : World) : GoError × World :=
  let w := w.log (.preview fname)
  match launcher h.GOOS with
  | none => (some "OS not supported", w)
  | some (cName, cParams) =>
    let cParams := cParams ++ [fname]
    match execLookPath h cName w with
    | (.error err, w) => (some err, w)
    | (.ok cPath, w) =>
      let (err, w) := execCommandRun h cPath cParams w
      let w := timeSleep (2 * timeSecond) w
      (err, w)

/-- Function `run`. The writer `out` is the `fprintln` events of the trace. The
deferred `os.Remove` runs after `preview` has returned and its error is dropped. -/
def run (h : Host) (filename tFname : String) (skipPreview : Bool) (w : World) :
    GoError × World :=
  match osReadFile h w filename with
  | .error err => (some err, w)
  | .ok input =>
    match parseContent h w input tFname filename with
    | (_, some err) => (some err, w)
    | (htmlData, none) =>
      match ioutilTempFile h "" "mdp*.html" w with
      | (.error err, w) => (some err, w)
      | (.ok temp, w) =>
        match fileClose h temp w with
        | (some err, w) => (some err, w)
        | (none, w) =>
          let outName := temp
          let w := fmtFprintln outName w
          match saveHTML h outName htmlData w with
          | (some err, w) => (some err, w)
          | (none, w) =>
            if skipPreview then (none, w)
            else
              let (err, w) := preview h outName w
              let (_, w) := osRemove h outName w
              (err, w)

/-! ## Observations on a trace -/

/-- Everything written to `out`, in order. -/
def written : List Event → List Char
  | [] => []
  | .fprintln bytes :: t => bytes ++ written t
  | _ :: t => written t

/-- Number of child processes started. -/
def started : List Event → Nat
  | [] => 0
  | .start _ _ :: t => started t + 1
  | _ :: t => started t

/-- Total time slept, in nanoseconds. -/
def slept : List Event → Nat
  | [] => 0
  | .sleep d :: t => slept t + d
  | _ :: t => slept t

/-- The text `<script`. -/
def scriptTag : List Char := "<script".toList

/-! ## A concrete host for evaluation -/

/-- A Linux host with a viewer installed and no failing system call. The two
library functions are stand-ins: the renderer knows the heading `# Hello` and
keeps any other input as it is, the sanitizer drops a text that contains
`<script` and keeps any other. -/
def linuxHost : Host where
  GOOS := "linux"
  tempDir := "/tmp/"
  nextRandom := fun n => toString (1234 + n)
  fault := fun _ => none
  blackfridayRun := fun b =>
    if b = "# Hello\n".toList then "<h1>Hello</h1>\n".toList else b
  sanitizeBytes := fun b => if scriptTag <:+: b then [] else b
  parseError := fun _ => none
  executeFile := fun text _ => (text, none)
  lookPath := fun file => .ok ("/usr/bin/" ++ file)
  start := fun _ _ => none
  wait := fun _ _ => none
  shortWrite := fun _ => none

/-- A world with one Markdown file. -/
def world0 : World where
  files := fun n => if n = "notes.md" then some "# Hello\n".toList else none
  trace := []

/-- A host whose platform is none of the three that `preview` knows. -/
def plan9Host : Host := { linuxHost with GOOS := "plan9" }

/-- A Linux host on which `xdg-open` is not installed. -/
def noViewerHost : Host :=
  { linuxHost with
    lookPath := fun file =>
      .error ("exec: \"" ++ file ++ "\": executable file not found in $PATH") }

/-- A Linux host on which the viewer starts and exits with status 3. -/
def failingViewerHost : Host :=
  { linuxHost with wait := fun _ _ => some "exit status 3" }

/-- A Windows host with the command shell on the search path. -/
def windowsHost : Host :=
  { linuxHost with
    GOOS := "windows"
    tempDir := "C:\\Temp\\"
    lookPath := fun file => .ok ("C:\\Windows\\system32\\" ++ file) }

/-- A Linux host on which the viewer on the search path cannot be executed. -/
def brokenViewerHost : Host :=
  { linuxHost with
    start := fun path _ => some ("fork/exec " ++ path ++ ": exec format error") }

/-- A Linux host on which the staged file is truncated and cannot be written. -/
def fullDiskHost : Host :=
  { linuxHost with
    fault := fun c =>
      match c with
      | .writeFile _ => some "no space left on device"
      | _ => none
    shortWrite := fun _ => some 0 }

/-- A Linux host on which the staged file cannot be removed. -/
def stickyHost : Host :=
  { linuxHost with
    fault := fun c =>
      match c with
      | .remove _ => some "operation not permitted"
      | _ => none }

/-- A host whose template engine stops a user template half way. -/
def brokenTemplateHost : Host :=
  { linuxHost with
    executeFile := fun text _ =>
      (text.take 6, some "template: page.tmpl:1:9: can't evaluate field Author") }

/-- A world with a Markdown file and a user template. -/
def world1 : World where
  files := fun n =>
    if n = "notes.md" then some "# Hello\n".toList
    else if n = "page.tmpl" then some "<html>\x7b\x7b .Author \x7d\x7d</html>".toList
    else none
  trace := []

/-! ## Lists: where an infix can lie -/

theorem not_infix_of_head_not_mem {α : Type} {a : α} {t l : List α} (h : a ∉ l) :
    ¬ (a :: t) <:+: l := by
  intro hin
  exact h (hin.subset (List.mem_cons_self a t))

theorem infix_split_at {α : Type} {c : α} {p xs ys : List α} (hc : c ∉ p)
    (h : p <:+: xs ++ c :: ys) : p <:+: xs ∨ p <:+: ys := by
  obtain ⟨s, t, hst⟩ := h
  rcases List.append_eq_append_iff.mp hst with ⟨a, ha, _⟩ | ⟨b, hb, hb2⟩
  · exact Or.inl ⟨s, a, ha.symm⟩
  · cases b with
    | nil =>
      refine Or.inl ⟨s, [], ?_⟩
      simpa using hb
    | cons b0 b1 =>
      simp only [List.cons_append, List.cons.injEq] at hb2
      obtain ⟨rfl, hys⟩ := hb2
      rcases List.append_eq_append_iff.mp hb with ⟨a, _, ha2⟩ | ⟨d, _, hd2⟩
      · exact absurd (by rw [ha2]; simp) hc
      · cases d with
        | nil =>
          exact absurd (by simp at hd2; rw [← hd2]; simp) hc
        | cons d0 d1 =>
          simp only [List.cons_append, List.cons.injEq] at hd2
          refine Or.inr ⟨d1, t, ?_⟩
          rw [hys, hd2.2]

/-! ## The escaper -/

theorem lt_not_mem_htmlReplacer (s : List Char) : '<' ∉ htmlReplacer s := by
  induction s with
  | nil => simp [htmlReplacer]
  | cons r s ih =>
    unfold htmlReplacer
    unfold htmlReplacementTable
    split_ifs with h0 h1 h2 h3 h4 h5 h6
    · simp only [List.mem_append, not_or]; exact ⟨by decide, ih⟩
    · simp only [List.mem_append, not_or]; exact ⟨by decide, ih⟩
    · simp only [List.mem_append, not_or]; exact ⟨by decide, ih⟩
    · simp only [List.mem_append, not_or]; exact ⟨by decide, ih⟩
    · simp only [List.mem_append, not_or]; exact ⟨by decide, ih⟩
    · simp only [List.mem_append, not_or]; exact ⟨by decide, ih⟩
    · simp only [List.mem_append, not_or]; exact ⟨by decide, ih⟩
    · simp only [List.mem_cons, not_or]; exact ⟨fun e => h5 e.symm, ih⟩

theorem htmlReplacer_of_plain (s : List Char) (hs : ∀ r ∈ s, htmlReplacementTable r = none) :
    htmlReplacer s = s := by
  induction s with
  | nil => rfl
  | cons r s ih =>
    have hr := hs r (List.mem_cons_self r s)
    have ih2 := ih (fun x hx => hs x (List.mem_cons_of_mem r hx))
    simp [htmlReplacer, hr, ih2]

/-! ## `parseContent` on the built-in template -/

theorem defaultTree_source : String.join (defaultTree.map Node.source) = defaultTemplate := rfl

theorem parseContent_default (h : Host) (w : World) (input : List Char) (fileName : String) :
    parseContent h w input "" fileName =
      (skeletonHead.toList ++ (htmlEscaper fileName ++
        ('\n' :: (h.sanitizeBytes (h.blackfridayRun input) ++ skeletonTail.toList))), none) := by
  simp [parseContent, templateParseDefault, templateExecute, defaultTree, execNodes, Node.exec]

set_option maxRecDepth 100000 in
theorem skeletonHead_split :
    ∃ top, skeletonHead.toList = top ++ '\n' :: "Previewing: ".toList ∧ ¬ scriptTag <:+: top :=
  ⟨"<!DOCTYPE html>\n<html>\n<head>\n    <meta http-equiv=\"content-type\" content=\"text/html; charset=utf-8\">\n    <title>Markdown Preview Tool</title>\n</head>\n<body>".toList,
    by decide, by decide⟩

theorem skeletonTail_split :
    ∃ rest, skeletonTail.toList = '\n' :: rest ∧ ¬ scriptTag <:+: rest :=
  ⟨"</body>\n</html>\n".toList, by decide, by decide⟩

theorem no_script_in_document (e b : List Char) (he : '<' ∉ e) (hb : ¬ scriptTag <:+: b) :
    ¬ scriptTag <:+: skeletonHead.toList ++ (e ++ ('\n' :: (b ++ skeletonTail.toList))) := by
  obtain ⟨top, htop, hntop⟩ := skeletonHead_split
  obtain ⟨rest, hrest, hnrest⟩ := skeletonTail_split
  have hnl : '\n' ∉ scriptTag := by decide
  intro hin
  rw [htop, hrest] at hin
  have e1 : (top ++ '\n' :: "Previewing: ".toList) ++ (e ++ '\n' :: (b ++ '\n' :: rest))
      = top ++ '\n' :: (("Previewing: ".toList ++ e) ++ '\n' :: (b ++ '\n' :: rest)) := by
    simp
  rw [e1] at hin
  rcases infix_split_at hnl hin with h1 | h1
  · exact hntop h1
  · rcases infix_split_at hnl h1 with h2 | h2
    · have : '<' ∉ "Previewing: ".toList ++ e := by
        simp only [List.mem_append, not_or]; exact ⟨by decide, he⟩
      exact not_infix_of_head_not_mem this h2
    · rcases infix_split_at hnl h2 with h3 | h3
      · exact hb h3
      · exact hnrest h3

/-- C1: with no alternate template, `parseContent` succeeds and its document
contains no `<script`, for every markup and every file name, whenever the
sanitizer's output for that markup contains no `<script`. -/
theorem parseContent_no_script (h : Host) (w : World) (input : List Char) (fileName : String)
    (hs : ¬ scriptTag <:+: h.sanitizeBytes (h.blackfridayRun input)) :
    (parseContent h w input "" fileName).2 = none ∧
      ¬ scriptTag <:+: (parseContent h w input "" fileName).1 := by
  rw [parseContent_default]
  exact ⟨rfl, no_script_in_document _ _ (lt_not_mem_htmlReplacer _) hs⟩

theorem parseContent_no_script_witness :
    (¬ scriptTag <:+: linuxHost.sanitizeBytes
        (linuxHost.blackfridayRun "# Hi\n<script>alert(1)</script>\n".toList)) ∧
    ((parseContent linuxHost world0 "# Hi\n<script>alert(1)</script>\n".toList ""
        "<script>.md").2 = none ∧
      ¬ scriptTag <:+: (parseContent linuxHost world0
        "# Hi\n<script>alert(1)</script>\n".toList "" "<script>.md").1) :=
  ⟨by decide, parseContent_no_script _ _ _ _ (by decide)⟩

set_option maxRecDepth 100000 in
/-- C2 (as stated, refuted): for the file name `Q&A.md` the document of
`parseContent` does not contain the file name byte for byte; it contains
`Q&amp;A.md`. -/
theorem parseContent_fileName_not_literal :
    ¬ "Q&A.md".toList <:+: (parseContent linuxHost world0 "# Hello\n".toList "" "Q&A.md").1 ∧
      "Previewing: Q&amp;A.md\n<h1>Hello</h1>\n".toList <:+:
        (parseContent linuxHost world0 "# Hello\n".toList "" "Q&A.md").1 := by
  decide

/-- C2 (amended): with no alternate template, `parseContent` succeeds and its
document is the skeleton with the HTML-escaped file name and the sanitized body
in place; so it contains the escaped file name, contains the sanitized body
unchanged, and contains the file name itself whenever no character of the name
has an entry in the replacement table. -/
theorem parseContent_fileName_escaped (h : Host) (w : World) (input : List Char)
    (fileName : String) :
    (parseContent h w input "" fileName).2 = none ∧
    (parseContent h w input "" fileName).1 =
      skeletonHead.toList ++ htmlEscaper fileName ++ ['\n'] ++
        h.sanitizeBytes (h.blackfridayRun input) ++ skeletonTail.toList ∧
    htmlEscaper fileName <:+: (parseContent h w input "" fileName).1 ∧
    h.sanitizeBytes (h.blackfridayRun input) <:+: (parseContent h w input "" fileName).1 ∧
    ((∀ r ∈ fileName.toList, htmlReplacementTable r = none) →
      fileName.toList <:+: (parseContent h w input "" fileName).1) := by
  rw [parseContent_default]
  refine ⟨rfl, by simp, ?_, ?_, ?_⟩
  · exact ⟨skeletonHead.toList,
      '\n' :: (h.sanitizeBytes (h.blackfridayRun input) ++ skeletonTail.toList), by simp⟩
  · exact ⟨skeletonHead.toList ++ htmlEscaper fileName ++ ['\n'], skeletonTail.toList, by simp⟩
  · intro hplain
    refine ⟨skeletonHead.toList,
      '\n' :: (h.sanitizeBytes (h.blackfridayRun input) ++ skeletonTail.toList), ?_⟩
    have hesc : htmlEscaper fileName = fileName.toList := htmlReplacer_of_plain _ hplain
    rw [hesc]
    simp

theorem parseContent_fileName_escaped_witness :
    "notes.md".toList <:+:
      (parseContent linuxHost world0 "# Hello\n".toList "" "notes.md").1 :=
  (parseContent_fileName_escaped linuxHost world0 "# Hello\n".toList "notes.md").2.2.2.2
    (by decide)

/-- C10: `parseContent` returns either the whole output of a template run that
ended without error, with a nil error, or a nil document with the error of the
step that failed (selecting the template, or running it); what a failed run had
already written to the buffer is never returned. -/
theorem parseContent_all_or_nothing (h : Host) (w : World) (input : List Char)
    (tFname fileName : String) :
    (∃ t doc,
      (if tFname ≠ "" then templateParseFiles h w tFname else templateParseDefault) = .ok t ∧
      templateExecute h t
        { Title := "Markdown Preview Tool",
          Body := h.sanitizeBytes (h.blackfridayRun input),
          FileName := fileName } = (doc, none) ∧
      parseContent h w input tFname fileName = (doc, none)) ∨
    (∃ e, parseContent h w input tFname fileName = ([], some e) ∧
      ((if tFname ≠ "" then templateParseFiles h w tFname else templateParseDefault)
          = .error e ∨
        ∃ t written,
          (if tFname ≠ "" then templateParseFiles h w tFname else templateParseDefault)
            = .ok t ∧
          templateExecute h t
            { Title := "Markdown Preview Tool",
              Body := h.sanitizeBytes (h.blackfridayRun input),
              FileName := fileName } = (written, some e))) := by
  unfold parseContent
  simp only [templateParseDefault]
  cases hsel : (if tFname ≠ "" then templateParseFiles h w tFname
      else (Except.ok (Template.tree defaultTree) : Except String Template)) with
  | error e => exact Or.inr ⟨e, rfl, Or.inl rfl⟩
  | ok t =>
    cases hex : templateExecute h t
        { Title := "Markdown Preview Tool",
          Body := h.sanitizeBytes (h.blackfridayRun input),
          FileName := fileName } with
    | mk written err =>
      cases err with
      | none => exact Or.inl ⟨t, written, rfl, hex, by simp [hex]⟩
      | some e => exact Or.inr ⟨e, by simp [hex], Or.inr ⟨t, written, rfl, hex⟩⟩

/-! ## `preview` -/

theorem preview_unsupported (h : Host) (fname : String) (w : World)
    (hos : launcher h.GOOS = none) :
    preview h fname w =
      (some "OS not supported", { files := w.files, trace := w.trace ++ [.preview fname] }) := by
  simp [preview, hos, World.log]

theorem preview_notFound (h : Host) (fname : String) (w : World) (cName e : String)
    (cParams : List String) (hos : launcher h.GOOS = some (cName, cParams))
    (hlook : h.lookPath cName = .error e) :
    preview h fname w =
      (some e, { files := w.files, trace := w.trace ++ [.preview fname, .lookPath cName] }) := by
  simp [preview, hos, execLookPath, hlook, World.log]

theorem preview_startFailed (h : Host) (fname : String) (w : World) (cName cPath e : String)
    (cParams : List String) (hos : launcher h.GOOS = some (cName, cParams))
    (hlook : h.lookPath cName = .ok cPath)
    (hstart : h.start cPath (cParams ++ [fname]) = some e) :
    preview h fname w =
      (some e,
        { files := w.files,
          trace := w.trace ++ [.preview fname, .lookPath cName, .sleep 2000000000] }) := by
  simp [preview, hos, execLookPath, hlook, execCommandRun, hstart, timeSleep, timeSecond,
    World.log]

theorem preview_launched (h : Host) (fname : String) (w : World) (cName cPath : String)
    (cParams : List String) (hos : launcher h.GOOS = some (cName, cParams))
    (hlook : h.lookPath cName = .ok cPath)
    (hstart : h.start cPath (cParams ++ [fname]) = none) :
    preview h fname w =
      (h.wait cPath (cParams ++ [fname]),
        { files := w.files,
          trace := w.trace ++ [.preview fname, .lookPath cName,
            .start cPath (cParams ++ [fname]), .sleep 2000000000] }) := by
  simp [preview, hos, execLookPath, hlook, execCommandRun, hstart, timeSleep, timeSecond,
    World.log]

theorem preview_shape (h : Host) (fname : String) :
    ∃ r rest, (∀ w, preview h fname w =
        (r, { files := w.files, trace := w.trace ++ .preview fname :: rest })) ∧
      written rest = [] ∧ (∀ g, Event.preview g ∉ rest) ∧ (∀ g, Event.remove g ∉ rest) := by
  cases hos : launcher h.GOOS with
  | none =>
    exact ⟨_, [], fun w => preview_unsupported h fname w hos, rfl, by simp, by simp⟩
  | some cp =>
    obtain ⟨cName, cParams⟩ := cp
    cases hlook : h.lookPath cName with
    | error e =>
      exact ⟨_, _, fun w => preview_notFound h fname w cName e cParams hos hlook, rfl,
        by simp, by simp⟩
    | ok cPath =>
      cases hstart : h.start cPath (cParams ++ [fname]) with
      | some e =>
        exact ⟨_, _, fun w => preview_startFailed h fname w cName cPath e cParams hos hlook
          hstart, rfl, by simp, by simp⟩
      | none =>
        exact ⟨_, _, fun w => preview_launched h fname w cName cPath cParams hos hlook hstart,
          rfl, by simp, by simp⟩

theorem preview_files (h : Host) (fname : String) (w : World) :
    (preview h fname w).2.files = w.files := by
  obtain ⟨r, rest, hpv, _⟩ := preview_shape h fname
  rw [hpv]

theorem launcher_cases (goos : String) :
    (goos = "windows" ∧ launcher goos = some ("cmd.exe", ["/C", "start"])) ∨
    (goos = "linux" ∧ launcher goos = some ("xdg-open", [])) ∨
    (goos = "darwin" ∧ launcher goos = some ("open", [])) ∨
    (goos ≠ "windows" ∧ goos ≠ "linux" ∧ goos ≠ "darwin" ∧ launcher goos = none) := by
  unfold launcher
  by_cases h1 : goos = "windows"
  · left; simp [h1]
  · by_cases h2 : goos = "linux"
    · right; left; simp [h2]
    · by_cases h3 : goos = "darwin"
      · right; right; left; simp [h3]
      · right; right; right; simp [h1, h2, h3]

theorem started_append (a b : List Event) : started (a ++ b) = started a + started b := by
  induction a with
  | nil => simp [started]
  | cons e a ih =>
    cases e <;> simp [started, ih]
    omega

theorem slept_append (a b : List Event) : slept (a ++ b) = slept a + slept b := by
  induction a with
  | nil => simp [slept]
  | cons e a ih =>
    cases e <;> simp [slept, ih]
    omega

theorem written_append (a b : List Event) : written (a ++ b) = written a ++ written b := by
  induction a with
  | nil => simp [written]
  | cons e a ih => cases e <;> simp [written, ih]

/-- C5 (as stated, refuted): on an unsupported platform, and on a platform whose
viewer is not on the search path, `preview` returns its error with no sleep at
all in the trace. -/
theorem preview_returns_without_delay :
    ((preview plan9Host "/tmp/mdp1234.html" world0).1 = some "OS not supported" ∧
      (preview plan9Host "/tmp/mdp1234.html" world0).2.trace =
        [.preview "/tmp/mdp1234.html"] ∧
      slept (preview plan9Host "/tmp/mdp1234.html" world0).2.trace = 0) ∧
    ((preview noViewerHost "/tmp/mdp1234.html" world0).1 =
        some "exec: \"xdg-open\": executable file not found in $PATH" ∧
      (preview noViewerHost "/tmp/mdp1234.html" world0).2.trace =
        [.preview "/tmp/mdp1234.html", .lookPath "xdg-open"] ∧
      slept (preview noViewerHost "/tmp/mdp1234.html" world0).2.trace = 0) := by
  decide

/-- C5 (amended): when the platform is supported and the command is found,
`preview` sleeps two seconds after the launch step and right before it returns,
whether the launch succeeded, the child failed, or the child could not be
started; when the platform is unsupported or the command is not found it
returns the error without sleeping. -/
theorem preview_delay (h : Host) (fname : String) (w : World) :
    (∀ cName cParams cPath, launcher h.GOOS = some (cName, cParams) →
      h.lookPath cName = .ok cPath →
        slept (preview h fname w).2.trace = slept w.trace + 2 * timeSecond ∧
        (h.start cPath (cParams ++ [fname]) = none →
          (preview h fname w).1 = h.wait cPath (cParams ++ [fname]) ∧
          (preview h fname w).2.trace = w.trace ++ [.preview fname, .lookPath cName,
            .start cPath (cParams ++ [fname]), .sleep (2 * timeSecond)]) ∧
        (∀ e, h.start cPath (cParams ++ [fname]) = some e →
          (preview h fname w).1 = some e ∧
          (preview h fname w).2.trace = w.trace ++ [.preview fname, .lookPath cName,
            .sleep (2 * timeSecond)])) ∧
    (launcher h.GOOS = none →
      (preview h fname w).1 = some "OS not supported" ∧
      slept (preview h fname w).2.trace = slept w.trace) ∧
    (∀ cName cParams e, launcher h.GOOS = some (cName, cParams) →
      h.lookPath cName = .error e →
        (preview h fname w).1 = some e ∧
        slept (preview h fname w).2.trace = slept w.trace) := by
  refine ⟨?_, ?_, ?_⟩
  · intro cName cParams cPath hos hlook
    cases hstart : h.start cPath (cParams ++ [fname]) with
    | none =>
      rw [preview_launched h fname w cName cPath cParams hos hlook hstart]
      simp [slept_append, slept, timeSecond]
    | some e =>
      rw [preview_startFailed h fname w cName cPath e cParams hos hlook hstart]
      simp [slept_append, slept, timeSecond]
  · intro hos
    rw [preview_unsupported h fname w hos]
    simp [slept_append, slept]
  · intro cName cParams e hos hlook
    rw [preview_notFound h fname w cName e cParams hos hlook]
    simp [slept_append, slept]

theorem preview_delay_witness :
    (preview failingViewerHost "/tmp/mdp1234.html" world0).1 = some "exit status 3" ∧
    (preview failingViewerHost "/tmp/mdp1234.html" world0).2.trace =
      [.preview "/tmp/mdp1234.html", .lookPath "xdg-open",
        .start "/usr/bin/xdg-open" ["/tmp/mdp1234.html"], .sleep 2000000000] ∧
    slept (preview failingViewerHost "/tmp/mdp1234.html" world0).2.trace = 2000000000 :=
  have hd := (preview_delay failingViewerHost "/tmp/mdp1234.html" world0).1
    "xdg-open" [] "/usr/bin/xdg-open" rfl rfl
  ⟨(hd.2.1 rfl).1, (hd.2.1 rfl).2, hd.1⟩

/-! ## Staging: `ioutil.TempFile` -/

theorem createTempLoop_ok (h : Host) (w : World) (pre suf : String) (left attempt : Nat)
    (name : String) (w1 : World)
    (hok : createTempLoop h w pre suf left attempt = (.ok name, w1)) :
    (∃ k, name = pre ++ h.nextRandom k ++ suf) ∧ w.files name = none ∧
      w1 = { files := fun n => if n = name then some [] else w.files n,
             trace := w.trace ++ [.createTemp name] } := by
  induction left generalizing attempt with
  | zero => simp [createTempLoop] at hok
  | succ left ih =>
    unfold createTempLoop at hok
    simp only at hok
    split at hok
    · exact ih _ hok
    · rename_i hfree
      split at hok
      · simp at hok
      · simp only [Prod.mk.injEq, Except.ok.injEq] at hok
        obtain ⟨hn, hw⟩ := hok
        subst hn
        exact ⟨⟨attempt, rfl⟩, hfree, by rw [← hw]; rfl⟩

theorem createTempLoop_error (h : Host) (w : World) (pre suf : String) (left attempt : Nat)
    (e : String) (w1 : World)
    (herr : createTempLoop h w pre suf left attempt = (.error e, w1)) : w1 = w := by
  induction left generalizing attempt with
  | zero =>
    simp only [createTempLoop, Prod.mk.injEq] at herr
    exact herr.2.symm
  | succ left ih =>
    unfold createTempLoop at herr
    simp only at herr
    split at herr
    · exact ih _ herr
    · split at herr
      · simp only [Prod.mk.injEq] at herr
        exact herr.2.symm
      · simp at herr

theorem prefixAndSuffix_pattern : prefixAndSuffix "mdp*.html" = ("mdp", ".html") := by decide

theorem ioutilTempFile_ok (h : Host) (w w1 : World) (name : String)
    (hok : ioutilTempFile h "" "mdp*.html" w = (.ok name, w1)) :
    (∃ k, name = h.tempDir ++ "mdp" ++ h.nextRandom k ++ ".html") ∧ w.files name = none ∧
      w1 = { files := fun n => if n = name then some [] else w.files n,
             trace := w.trace ++ [.createTemp name] } := by
  unfold ioutilTempFile at hok
  simp only [prefixAndSuffix_pattern, if_true] at hok
  exact createTempLoop_ok h w _ _ _ _ name w1 hok

theorem ioutilTempFile_error (h : Host) (w w1 : World) (e : String)
    (herr : ioutilTempFile h "" "mdp*.html" w = (.error e, w1)) : w1 = w :=
  createTempLoop_error h w _ _ _ _ e w1 herr

theorem tempName_suffix (h : Host) (k : Nat) :
    ".html".toList <:+ (h.tempDir ++ "mdp" ++ h.nextRandom k ++ ".html").toList := by
  refine ⟨(h.tempDir ++ "mdp" ++ h.nextRandom k).toList, ?_⟩
  simp

/-! ## `run`, path by path -/

theorem run_read_error (h : Host) (filename tFname : String) (skipPreview : Bool) (w : World)
    (e : String) (hread : osReadFile h w filename = .error e) :
    run h filename tFname skipPreview w = (some e, w) := by
  simp [run, hread]

theorem run_parse_error (h : Host) (filename tFname : String) (skipPreview : Bool) (w : World)
    (input written : List Char) (e : String) (hread : osReadFile h w filename = .ok input)
    (hparse : parseContent h w input tFname filename = (written, some e)) :
    run h filename tFname skipPreview w = (some e, w) := by
  simp [run, hread, hparse]

theorem run_temp_error (h : Host) (filename tFname : String) (skipPreview : Bool) (w w1 : World)
    (input doc : List Char) (e : String) (hread : osReadFile h w filename = .ok input)
    (hparse : parseContent h w input tFname filename = (doc, none))
    (htemp : ioutilTempFile h "" "mdp*.html" w = (.error e, w1)) :
    run h filename tFname skipPreview w = (some e, w) := by
  have hw := ioutilTempFile_error h w w1 e htemp
  subst hw
  simp [run, hread, hparse, htemp]

theorem run_close_error (h : Host) (filename tFname : String) (skipPreview : Bool)
    (w w1 : World) (input doc : List Char) (name e : String)
    (hread : osReadFile h w filename = .ok input)
    (hparse : parseContent h w input tFname filename = (doc, none))
    (htemp : ioutilTempFile h "" "mdp*.html" w = (.ok name, w1))
    (hclose : h.fault (.close name) = some e) :
    run h filename tFname skipPreview w =
      (some e, { files := fun n => if n = name then some [] else w.files n,
                 trace := w.trace ++ [.createTemp name] }) := by
  obtain ⟨_, _, hw1⟩ := ioutilTempFile_ok h w w1 name htemp
  subst hw1
  simp [run, hread, hparse, htemp, fileClose, hclose]

theorem run_write_error (h : Host) (filename tFname : String) (skipPreview : Bool)
    (w w1 : World) (input doc : List Char) (name e : String)
    (hread : osReadFile h w filename = .ok input)
    (hparse : parseContent h w input tFname filename = (doc, none))
    (htemp : ioutilTempFile h "" "mdp*.html" w = (.ok name, w1))
    (hclose : h.fault (.close name) = none)
    (hwrite : h.fault (.writeFile name) = some e) :
    (run h filename tFname skipPreview w).1 = some e ∧
    (run h filename tFname skipPreview w).2.trace =
      w.trace ++ [.createTemp name, .close name, .fprintln (name.toList ++ ['\n'])] ∧
    ∃ d, (run h filename tFname skipPreview w).2.files name = some d := by
  obtain ⟨_, _, hw1⟩ := ioutilTempFile_ok h w w1 name htemp
  subst hw1
  cases hshort : h.shortWrite name with
  | none =>
    simp [run, hread, hparse, htemp, fileClose, hclose, fmtFprintln, saveHTML, osWriteFile,
      hwrite, hshort, World.log]
  | some k =>
    simp [run, hread, hparse, htemp, fileClose, hclose, fmtFprintln, saveHTML, osWriteFile,
      hwrite, hshort, World.log, World.put]

theorem run_skip (h : Host) (filename tFname : String)
    (w w1 : World) (input doc : List Char) (name : String)
    (hread : osReadFile h w filename = .ok input)
    (hparse : parseContent h w input tFname filename = (doc, none))
    (htemp : ioutilTempFile h "" "mdp*.html" w = (.ok name, w1))
    (hclose : h.fault (.close name) = none)
    (hwrite : h.fault (.writeFile name) = none) :
    run h filename tFname true w =
      (none, { files := fun n => if n = name then some doc else w.files n,
               trace := w.trace ++ [.createTemp name, .close name,
                 .fprintln (name.toList ++ ['\n']), .writeFile name doc] }) := by
  obtain ⟨_, _, hw1⟩ := ioutilTempFile_ok h w w1 name htemp
  subst hw1
  simp [run, hread, hparse, htemp, fileClose, hclose, fmtFprintln, saveHTML, osWriteFile,
    hwrite, World.log, World.put]
  funext n
  by_cases hn : n = name <;> simp [hn]

theorem run_preview (h : Host) (filename tFname : String)
    (w w1 : World) (input doc : List Char) (name : String)
    (hread : osReadFile h w filename = .ok input)
    (hparse : parseContent h w input tFname filename = (doc, none))
    (htemp : ioutilTempFile h "" "mdp*.html" w = (.ok name, w1))
    (hclose : h.fault (.close name) = none)
    (hwrite : h.fault (.writeFile name) = none) :
    run h filename tFname false w =
      ((preview h name
          { files := fun n => if n = name then some doc else w.files n,
            trace := w.trace ++ [.createTemp name, .close name,
              .fprintln (name.toList ++ ['\n']), .writeFile name doc] }).1,
        (osRemove h name (preview h name
          { files := fun n => if n = name then some doc else w.files n,
            trace := w.trace ++ [.createTemp name, .close name,
              .fprintln (name.toList ++ ['\n']), .writeFile name doc] }).2).2) := by
  obtain ⟨_, _, hw1⟩ := ioutilTempFile_ok h w w1 name htemp
  subst hw1
  have hfiles : (fun n => if n = name then some doc
        else if n = name then some [] else w.files n)
      = (fun n => if n = name then some doc else w.files n) := by
    funext n
    by_cases hn : n = name <;> simp [hn]
  simp [run, hread, hparse, htemp, fileClose, hclose, fmtFprintln, saveHTML, osWriteFile,
    hwrite, World.log, World.put, hfiles]

theorem osRemove_trace (h : Host) (name : String) (w : World) :
    (osRemove h name w).2.trace = w.trace ∨
      (osRemove h name w).2.trace = w.trace ++ [.remove name] := by
  unfold osRemove
  cases h.fault (.remove name) with
  | some e => exact Or.inl rfl
  | none =>
    cases w.files name with
    | none => exact Or.inl rfl
    | some d => exact Or.inr rfl

theorem osRemove_ok (h : Host) (name : String) (w : World) (d : List Char)
    (hfault : h.fault (.remove name) = none) (hex : w.files name = some d) :
    osRemove h name w =
      (none, { files := fun n => if n = name then none else w.files n,
               trace := w.trace ++ [.remove name] }) := by
  simp [osRemove, hfault, hex, World.delete, World.log]


theorem osRemove_fault (h : Host) (name e : String) (w : World)
    (hfault : h.fault (.remove name) = some e) : osRemove h name w = (some e, w) := by
  simp [osRemove, hfault]

theorem tempName_ne (h : Host) (w0 w1 : World) (name : String)
    (htemp : ioutilTempFile h "" "mdp*.html" w0 = (.ok name, w1)) :
    ".html".toList <:+ name.toList ∧ name ≠ "/C" ∧ name ≠ "start" := by
  obtain ⟨⟨k, hname⟩, _, _⟩ := ioutilTempFile_ok h w0 w1 name htemp
  have hsuf : ".html".toList <:+ name.toList := by
    rw [hname]; exact tempName_suffix h k
  refine ⟨hsuf, ?_, ?_⟩
  · intro hn
    rw [hn] at hsuf
    exact absurd hsuf (by decide)
  · intro hn
    rw [hn] at hsuf
    exact absurd hsuf (by decide)

/-- C6: `preview` looks up `cmd.exe` on windows, `xdg-open` on linux and `open`
on darwin, and starts what it found with the arguments `/C start p`, `p` and
`p`; on any other platform it fails with `OS not supported` and does nothing
else. The path is appended once, as the last argument: it is the only argument
on linux and darwin, and on windows it follows the two fixed arguments, so it
occurs once for every path that is not itself one of the two fixed words, as is
every path that `run` obtains from `ioutil.TempFile`. -/
theorem preview_command_table (h : Host) (p : String) (w : World) :
    (h.GOOS = "windows" →
      w.trace ++ [.preview p, .lookPath "cmd.exe"] <+: (preview h p w).2.trace ∧
      (∀ cPath, h.lookPath "cmd.exe" = .ok cPath → h.start cPath ["/C", "start", p] = none →
        (preview h p w).2.trace = w.trace ++ [.preview p, .lookPath "cmd.exe",
          .start cPath ["/C", "start", p], .sleep 2000000000]) ∧
      ["/C", "start", p].getLast? = some p ∧
      (p ≠ "/C" → p ≠ "start" → ["/C", "start", p].count p = 1)) ∧
    (h.GOOS = "linux" →
      w.trace ++ [.preview p, .lookPath "xdg-open"] <+: (preview h p w).2.trace ∧
      (∀ cPath, h.lookPath "xdg-open" = .ok cPath → h.start cPath [p] = none →
        (preview h p w).2.trace = w.trace ++ [.preview p, .lookPath "xdg-open",
          .start cPath [p], .sleep 2000000000]) ∧
      [p].getLast? = some p ∧ [p].count p = 1) ∧
    (h.GOOS = "darwin" →
      w.trace ++ [.preview p, .lookPath "open"] <+: (preview h p w).2.trace ∧
      (∀ cPath, h.lookPath "open" = .ok cPath → h.start cPath [p] = none →
        (preview h p w).2.trace = w.trace ++ [.preview p, .lookPath "open",
          .start cPath [p], .sleep 2000000000]) ∧
      [p].getLast? = some p ∧ [p].count p = 1) ∧
    (h.GOOS ≠ "windows" → h.GOOS ≠ "linux" → h.GOOS ≠ "darwin" →
      (preview h p w).1 = some "OS not supported" ∧
      (preview h p w).2.trace = w.trace ++ [.preview p]) ∧
    (∀ w0 w1, ioutilTempFile h "" "mdp*.html" w0 = (.ok p, w1) →
      p ≠ "/C" ∧ p ≠ "start" ∧ ["/C", "start", p].count p = 1) := by
  have hpre : ∀ cName cParams, launcher h.GOOS = some (cName, cParams) →
      w.trace ++ [.preview p, .lookPath cName] <+: (preview h p w).2.trace := by
    intro cName cParams hl
    cases hlook : h.lookPath cName with
    | error e =>
      rw [preview_notFound h p w cName e cParams hl hlook]
    | ok cPath =>
      cases hstart : h.start cPath (cParams ++ [p]) with
      | some e =>
        rw [preview_startFailed h p w cName cPath e cParams hl hlook hstart]
        exact ⟨[.sleep 2000000000], by simp⟩
      | none =>
        rw [preview_launched h p w cName cPath cParams hl hlook hstart]
        exact ⟨[.start cPath (cParams ++ [p]), .sleep 2000000000], by simp⟩
  have hcount : p ≠ "/C" → p ≠ "start" → ["/C", "start", p].count p = 1 := by
    intro h1 h2
    have h1' : ¬ "/C" = p := fun e => h1 e.symm
    have h2' : ¬ "start" = p := fun e => h2 e.symm
    simp [h1', h2', List.count_cons]
  refine ⟨?_, ?_, ?_, ?_, ?_⟩
  · intro hos
    have hl : launcher h.GOOS = some ("cmd.exe", ["/C", "start"]) := by rw [hos]; rfl
    refine ⟨hpre _ _ hl, ?_, by simp, hcount⟩
    intro cPath hlook hstart
    rw [preview_launched h p w _ cPath _ hl hlook hstart]; rfl
  · intro hos
    have hl : launcher h.GOOS = some ("xdg-open", []) := by rw [hos]; rfl
    refine ⟨hpre _ _ hl, ?_, by simp, by simp⟩
    intro cPath hlook hstart
    rw [preview_launched h p w _ cPath _ hl hlook hstart]; rfl
  · intro hos
    have hl : launcher h.GOOS = some ("open", []) := by rw [hos]; rfl
    refine ⟨hpre _ _ hl, ?_, by simp, by simp⟩
    intro cPath hlook hstart
    rw [preview_launched h p w _ cPath _ hl hlook hstart]; rfl
  · intro h1 h2 h3
    have hl : launcher h.GOOS = none := by simp [launcher, h1, h2, h3]
    rw [preview_unsupported h p w hl]
    exact ⟨rfl, rfl⟩
  · intro w0 w1 htemp
    obtain ⟨_, h1, h2⟩ := tempName_ne h w0 w1 p htemp
    exact ⟨h1, h2, hcount h1 h2⟩

theorem preview_command_table_witness :
    (preview windowsHost "C:\\Temp\\mdp1234.html" world0).2.trace =
        [.preview "C:\\Temp\\mdp1234.html", .lookPath "cmd.exe",
          .start "C:\\Windows\\system32\\cmd.exe" ["/C", "start", "C:\\Temp\\mdp1234.html"],
          .sleep 2000000000] ∧
      ["/C", "start", "C:\\Temp\\mdp1234.html"].count "C:\\Temp\\mdp1234.html" = 1 :=
  ⟨((preview_command_table windowsHost "C:\\Temp\\mdp1234.html" world0).1 rfl).2.1
      "C:\\Windows\\system32\\cmd.exe" rfl rfl,
    ((preview_command_table windowsHost "C:\\Temp\\mdp1234.html" world0).2.2.2.2
      world0 (ioutilTempFile windowsHost "" "mdp*.html" world0).2 rfl).2.2⟩

/-- C7 (as stated, refuted): on a Linux host whose `xdg-open` is found on the
search path but cannot be executed, the platform is supported and the lookup
succeeds, yet no child process is started and `preview` returns the error of
the failed start. -/
theorem preview_found_not_started :
    launcher brokenViewerHost.GOOS = some ("xdg-open", []) ∧
    brokenViewerHost.lookPath "xdg-open" = .ok "/usr/bin/xdg-open" ∧
    started (preview brokenViewerHost "/tmp/mdp1234.html" world0).2.trace = 0 ∧
    (preview brokenViewerHost "/tmp/mdp1234.html" world0).1 =
      some "fork/exec /usr/bin/xdg-open: exec format error" :=
  ⟨by decide, rfl, by decide, by decide⟩

/-- C7 (amended): `preview` starts a child process exactly when the platform is
one of windows, linux and darwin, the command chosen for it is found on the
search path, and starting it does not fail; then it starts exactly one. In
every other case (platform unsupported, command not found, start failed) it
starts none and returns an error. -/
theorem preview_spawns (h : Host) (fname : String) (w : World) :
    (launcher h.GOOS ≠ none ↔
      h.GOOS = "windows" ∨ h.GOOS = "linux" ∨ h.GOOS = "darwin") ∧
    (started (preview h fname w).2.trace = started w.trace + 1 ↔
      ∃ cName cParams cPath,
        launcher h.GOOS = some (cName, cParams) ∧ h.lookPath cName = .ok cPath ∧
        h.start cPath (cParams ++ [fname]) = none) ∧
    (started (preview h fname w).2.trace = started w.trace ↔
      ¬ ∃ cName cParams cPath,
        launcher h.GOOS = some (cName, cParams) ∧ h.lookPath cName = .ok cPath ∧
        h.start cPath (cParams ++ [fname]) = none) ∧
    ((¬ ∃ cName cParams cPath,
        launcher h.GOOS = some (cName, cParams) ∧ h.lookPath cName = .ok cPath ∧
        h.start cPath (cParams ++ [fname]) = none) →
      (preview h fname w).1 ≠ none) := by
  refine ⟨?_, ?_⟩
  · rcases launcher_cases h.GOOS with ⟨h1, hl⟩ | ⟨h1, hl⟩ | ⟨h1, hl⟩ | ⟨h1, h2, h3, hl⟩
    · rw [hl]; simp [h1]
    · rw [hl]; simp [h1]
    · rw [hl]; simp [h1]
    · rw [hl]; simp [h1, h2, h3]
  · cases hos : launcher h.GOOS with
    | none =>
      rw [preview_unsupported h fname w hos]
      simp [started_append, started]
    | some cp =>
      obtain ⟨cName, cParams⟩ := cp
      cases hlook : h.lookPath cName with
      | error e =>
        rw [preview_notFound h fname w cName e cParams hos hlook]
        simp [started_append, started, hlook]
      | ok cPath =>
        cases hstart : h.start cPath (cParams ++ [fname]) with
        | some e =>
          rw [preview_startFailed h fname w cName cPath e cParams hos hlook hstart]
          simp [started_append, started, hlook, hstart]
        | none =>
          rw [preview_launched h fname w cName cPath cParams hos hlook hstart]
          simp [started_append, started, hlook, hstart]
          exact ⟨cName, cParams, ⟨rfl, rfl⟩, cPath, hlook, hstart⟩

theorem preview_spawns_witness :
    started (preview linuxHost "/tmp/mdp1234.html" world0).2.trace = started world0.trace + 1 :=
  (preview_spawns linuxHost "/tmp/mdp1234.html" world0).2.1.mpr
    ⟨"xdg-open", [], "/usr/bin/xdg-open", rfl, rfl, rfl⟩

/-- C9: when reading the input file fails, or `parseContent` fails, `run`
returns that very error and the world is as it was: no temporary file, nothing
written to `out`, no document on disk, no call of `preview`. -/
theorem run_fail_fast (h : Host) (filename tFname : String) (skipPreview : Bool) (w : World)
    (e : String)
    (hfail : osReadFile h w filename = .error e ∨
      ∃ input buffer, osReadFile h w filename = .ok input ∧
        parseContent h w input tFname filename = (buffer, some e)) :
    run h filename tFname skipPreview w = (some e, w) ∧
      (run h filename tFname skipPreview w).2.files = w.files ∧
      (run h filename tFname skipPreview w).2.trace = w.trace := by
  have hrun : run h filename tFname skipPreview w = (some e, w) := by
    rcases hfail with hread | ⟨input, buffer, hread, hparse⟩
    · exact run_read_error h filename tFname skipPreview w e hread
    · exact run_parse_error h filename tFname skipPreview w input buffer e hread hparse
  rw [hrun]
  exact ⟨rfl, rfl, rfl⟩

theorem run_fail_fast_witness :
    run brokenTemplateHost "notes.md" "page.tmpl" false world1 =
        (some "template: page.tmpl:1:9: can't evaluate field Author", world1) ∧
      (run brokenTemplateHost "notes.md" "page.tmpl" false world1).2.files = world1.files ∧
      (run brokenTemplateHost "notes.md" "page.tmpl" false world1).2.trace = world1.trace :=
  run_fail_fast brokenTemplateHost "notes.md" "page.tmpl" false world1 _
    (Or.inr ⟨"# Hello\n".toList, [], rfl, rfl⟩)

/-- C4: when reading, rendering and staging succeed and `skipPreview` is set,
`run` returns nil; the staged file exists and holds exactly the document, every
other file is as before; the effects are the creation and closing of the file,
the line with its path on `out` and the write, so `preview` is not called, no
process is started, nothing sleeps and nothing is removed. -/
theorem run_skipPreview (h : Host) (filename tFname : String) (w w1 : World)
    (input doc : List Char) (name : String)
    (hread : osReadFile h w filename = .ok input)
    (hparse : parseContent h w input tFname filename = (doc, none))
    (htemp : ioutilTempFile h "" "mdp*.html" w = (.ok name, w1))
    (hclose : h.fault (.close name) = none)
    (hwrite : h.fault (.writeFile name) = none) :
    (run h filename tFname true w).1 = none ∧
    (run h filename tFname true w).2.files name = some doc ∧
    (∀ n, n ≠ name → (run h filename tFname true w).2.files n = w.files n) ∧
    (run h filename tFname true w).2.trace =
      w.trace ++ [.createTemp name, .close name, .fprintln (name.toList ++ ['\n']),
        .writeFile name doc] ∧
    written (run h filename tFname true w).2.trace =
      written w.trace ++ (name.toList ++ ['\n']) ∧
    started (run h filename tFname true w).2.trace = started w.trace ∧
    slept (run h filename tFname true w).2.trace = slept w.trace ∧
    (∀ f, Event.preview f ∉ [Event.createTemp name, .close name,
      .fprintln (name.toList ++ ['\n']), .writeFile name doc]) ∧
    (∀ f, Event.remove f ∉ [Event.createTemp name, .close name,
      .fprintln (name.toList ++ ['\n']), .writeFile name doc]) := by
  rw [run_skip h filename tFname w w1 input doc name hread hparse htemp hclose hwrite]
  refine ⟨rfl, by simp, ?_, rfl, ?_, ?_, ?_, by simp, by simp⟩
  · intro n hn
    simp [hn]
  · simp [written_append, written]
  · simp [started_append, started]
  · simp [slept_append, slept]

theorem run_skipPreview_witness :
    (run linuxHost "notes.md" "" true world0).1 = none ∧
    (run linuxHost "notes.md" "" true world0).2.files "/tmp/mdp1234.html" =
      some (parseContent linuxHost world0 "# Hello\n".toList "" "notes.md").1 ∧
    (run linuxHost "notes.md" "" true world0).2.trace =
      world0.trace ++ [.createTemp "/tmp/mdp1234.html", .close "/tmp/mdp1234.html",
        .fprintln ("/tmp/mdp1234.html".toList ++ ['\n']),
        .writeFile "/tmp/mdp1234.html"
          (parseContent linuxHost world0 "# Hello\n".toList "" "notes.md").1] :=
  have hrun := run_skipPreview linuxHost "notes.md" "" world0
    (ioutilTempFile linuxHost "" "mdp*.html" world0).2 "# Hello\n".toList
    (parseContent linuxHost world0 "# Hello\n".toList "" "notes.md").1 "/tmp/mdp1234.html"
    rfl rfl rfl rfl rfl
  ⟨hrun.1, hrun.2.1, hrun.2.2.2.1⟩

set_option maxRecDepth 100000 in
/-- C3 (as stated, refuted): with `skipPreview = false`, when writing the
document fails `run` returns the error and the temporary file is still there;
and when the removal itself fails after a preview, `run` returns nil and the
staged file is still there. -/
theorem run_leaves_file :
    ((run fullDiskHost "notes.md" "" false world0).1 = some "no space left on device" ∧
      (run fullDiskHost "notes.md" "" false world0).2.files "/tmp/mdp1234.html" = some []) ∧
    ((run stickyHost "notes.md" "" false world0).1 = none ∧
      (run stickyHost "notes.md" "" false world0).2.files "/tmp/mdp1234.html" =
        some (parseContent stickyHost world0 "# Hello\n".toList "" "notes.md").1) := by
  decide

/-- C3 (amended): with `skipPreview = false`, when reading, rendering and staging
succeed, `run` calls `preview` and then `os.Remove` on the staged file, whatever
`preview` returned, and returns what `preview` returned. When the removal does
not fail the staged file does not exist when `run` returns, every other file is
as before and the removal is the last effect; when the removal fails its error
is dropped and the staged file still holds the document. -/
theorem run_removes_after_preview (h : Host) (filename tFname : String) (w w1 : World)
    (input doc : List Char) (name : String)
    (hread : osReadFile h w filename = .ok input)
    (hparse : parseContent h w input tFname filename = (doc, none))
    (htemp : ioutilTempFile h "" "mdp*.html" w = (.ok name, w1))
    (hclose : h.fault (.close name) = none)
    (hwrite : h.fault (.writeFile name) = none) :
    (run h filename tFname false w).1 = (preview h name w).1 ∧
    ∃ rest, (preview h name w).2.trace = w.trace ++ .preview name :: rest ∧
      (run h filename tFname false w).2 =
        (osRemove h name
          { files := fun n => if n = name then some doc else w.files n,
            trace := w.trace ++ [.createTemp name, .close name,
              .fprintln (name.toList ++ ['\n']), .writeFile name doc] ++
              .preview name :: rest }).2 ∧
      (h.fault (.remove name) = none →
        (run h filename tFname false w).2.files name = none ∧
        (∀ n, n ≠ name → (run h filename tFname false w).2.files n = w.files n) ∧
        (run h filename tFname false w).2.trace =
          w.trace ++ [.createTemp name, .close name, .fprintln (name.toList ++ ['\n']),
            .writeFile name doc] ++ .preview name :: rest ++ [.remove name]) ∧
      (∀ e, h.fault (.remove name) = some e →
        (run h filename tFname false w).2.files name = some doc ∧
        (run h filename tFname false w).2.trace =
          w.trace ++ [.createTemp name, .close name, .fprintln (name.toList ++ ['\n']),
            .writeFile name doc] ++ .preview name :: rest) := by
  obtain ⟨r, rest, hpv, _, _, _⟩ := preview_shape h name
  rw [run_preview h filename tFname w w1 input doc name hread hparse htemp hclose hwrite]
  rw [hpv, hpv w]
  refine ⟨rfl, rest, rfl, rfl, ?_, ?_⟩
  · intro hremove
    rw [osRemove_ok h name _ doc hremove (by simp)]
    refine ⟨by simp, ?_, by simp⟩
    intro n hn
    simp [hn]
  · intro e hremove
    rw [osRemove_fault h name e _ hremove]
    exact ⟨by simp, rfl⟩

theorem run_removes_after_preview_witness :
    (run plan9Host "notes.md" "" false world0).2.files "/tmp/mdp1234.html" = none ∧
    (run plan9Host "notes.md" "" false world0).1 = some "OS not supported" :=
  have hrun := run_removes_after_preview plan9Host "notes.md" "" world0
    (ioutilTempFile plan9Host "" "mdp*.html" world0).2 "# Hello\n".toList
    (parseContent plan9Host world0 "# Hello\n".toList "" "notes.md").1 "/tmp/mdp1234.html"
    rfl rfl rfl rfl rfl
  match hrun with
  | ⟨hres, _, _, _, hok, _⟩ => ⟨(hok rfl).1, hres⟩

theorem run_trace_shape (h : Host) (filename tFname : String) (skipPreview : Bool)
    (w : World) :
    ∃ evs, (run h filename tFname skipPreview w).2.trace = w.trace ++ evs ∧
      ((run h filename tFname skipPreview w).1 = none →
        ∃ name, Event.createTemp name ∈ evs ∧ written evs = name.toList ++ ['\n'] ∧
          ".html".toList <:+ name.toList) ∧
      (∀ f, Event.preview f ∈ evs →
        ∃ doc rest, evs = [.createTemp f, .close f, .fprintln (f.toList ++ ['\n']),
            .writeFile f doc, .preview f] ++ rest ∧
          ∀ g, Event.preview g ∉ rest) := by
  cases hread : osReadFile h w filename with
  | error e =>
    rw [run_read_error h filename tFname skipPreview w e hread]
    exact ⟨[], by simp, by simp, by simp⟩
  | ok input =>
    cases hparse : parseContent h w input tFname filename with
    | mk doc err =>
      cases err with
      | some e =>
        rw [run_parse_error h filename tFname skipPreview w input doc e hread hparse]
        exact ⟨[], by simp, by simp, by simp⟩
      | none =>
        cases htemp : ioutilTempFile h "" "mdp*.html" w with
        | mk res w1 =>
          cases res with
          | error e =>
            rw [run_temp_error h filename tFname skipPreview w w1 input doc e hread hparse
              htemp]
            exact ⟨[], by simp, by simp, by simp⟩
          | ok name =>
            obtain ⟨⟨k, hname⟩, _, _⟩ := ioutilTempFile_ok h w w1 name htemp
            have hsuf : ".html".toList <:+ name.toList := by
              rw [hname]; exact tempName_suffix h k
            cases hclose : h.fault (.close name) with
            | some e =>
              rw [run_close_error h filename tFname skipPreview w w1 input doc name e hread
                hparse htemp hclose]
              exact ⟨[.createTemp name], rfl, by simp, by simp⟩
            | none =>
              cases hwrite : h.fault (.writeFile name) with
              | some e =>
                obtain ⟨hres, htr, _⟩ := run_write_error h filename tFname skipPreview w w1
                  input doc name e hread hparse htemp hclose hwrite
                rw [hres, htr]
                exact ⟨_, rfl, by simp, by simp⟩
              | none =>
                cases skipPreview with
                | true =>
                  rw [run_skip h filename tFname w w1 input doc name hread hparse htemp
                    hclose hwrite]
                  refine ⟨_, rfl, fun _ => ⟨name, by simp, by simp [written], hsuf⟩, by simp⟩
                | false =>
                  obtain ⟨r, rest, hpv, hwr, hnp, hnr⟩ := preview_shape h name
                  rw [run_preview h filename tFname w w1 input doc name hread hparse htemp
                    hclose hwrite]
                  rw [hpv]
                  dsimp only
                  rcases osRemove_trace h name
                    { files := fun n => if n = name then some doc else w.files n,
                      trace := w.trace ++ [.createTemp name, .close name,
                        .fprintln (name.toList ++ ['\n']), .writeFile name doc] ++
                        .preview name :: rest } with hrm | hrm
                  · refine ⟨[.createTemp name, .close name, .fprintln (name.toList ++ ['\n']),
                      .writeFile name doc, .preview name] ++ rest, ?_, ?_, ?_⟩
                    · rw [hrm]; simp
                    · intro _
                      exact ⟨name, by simp, by simp [written, written_append, hwr], hsuf⟩
                    · intro f hf
                      have hfn : f = name := by
                        simp only [List.cons_append, List.nil_append, List.mem_cons,
                          Event.preview.injEq, false_or, reduceCtorEq] at hf
                        rcases hf with hf | hf
                        · exact hf
                        · exact absurd hf (hnp f)
                      subst hfn
                      exact ⟨doc, rest, rfl, hnp⟩
                  · refine ⟨[.createTemp name, .close name, .fprintln (name.toList ++ ['\n']),
                      .writeFile name doc, .preview name] ++ (rest ++ [.remove name]),
                      ?_, ?_, ?_⟩
                    · rw [hrm]; simp
                    · intro _
                      exact ⟨name, by simp, by simp [written, written_append, hwr], hsuf⟩
                    · intro f hf
                      have hfn : f = name := by
                        simp only [List.cons_append, List.nil_append, List.mem_cons,
                          Event.preview.injEq, false_or, reduceCtorEq, List.mem_append,
                          List.mem_singleton, List.not_mem_nil, or_false] at hf
                        rcases hf with hf | hf
                        · exact hf
                        · exact absurd hf (hnp f)
                      subst hfn
                      refine ⟨doc, rest ++ [.remove f], rfl, ?_⟩
                      intro g hg
                      simp only [List.mem_append, List.mem_singleton, reduceCtorEq,
                        or_false] at hg
                      exact hnp g hg

theorem run_staged (h : Host) (filename tFname : String) (skipPreview : Bool) (w w1 : World)
    (input doc : List Char) (name : String) (evs : List Event)
    (hevs : (run h filename tFname skipPreview w).2.trace = w.trace ++ evs)
    (hread : osReadFile h w filename = .ok input)
    (hparse : parseContent h w input tFname filename = (doc, none))
    (htemp : ioutilTempFile h "" "mdp*.html" w = (.ok name, w1))
    (hclose : h.fault (.close name) = none) :
    Event.createTemp name ∈ evs ∧ written evs = name.toList ++ ['\n'] ∧
    ".html".toList <:+ name.toList ∧
    (h.fault (.writeFile name) = none →
      (skipPreview = true → (run h filename tFname skipPreview w).1 = none) ∧
      (skipPreview = false → Event.preview name ∈ evs ∧
        (run h filename tFname skipPreview w).1 = (preview h name w).1)) := by
  have hsuf := (tempName_ne h w w1 name htemp).1
  cases hwrite : h.fault (.writeFile name) with
  | some e =>
    obtain ⟨_, htr, _⟩ := run_write_error h filename tFname skipPreview w w1
      input doc name e hread hparse htemp hclose hwrite
    rw [htr] at hevs
    have he := List.append_cancel_left hevs
    subst he
    exact ⟨by simp, by simp [written], hsuf, by simp⟩
  | none =>
    cases skipPreview with
    | true =>
      rw [run_skip h filename tFname w w1 input doc name hread hparse htemp hclose hwrite]
        at hevs ⊢
      have he := List.append_cancel_left hevs
      subst he
      exact ⟨by simp, by simp [written], hsuf, by simp⟩
    | false =>
      obtain ⟨r, rest, hpv, hwr, _, _⟩ := preview_shape h name
      rw [run_preview h filename tFname w w1 input doc name hread hparse htemp hclose hwrite]
        at hevs ⊢
      rw [hpv] at hevs ⊢
      rw [hpv w]
      dsimp only at hevs ⊢
      rcases osRemove_trace h name
        { files := fun n => if n = name then some doc else w.files n,
          trace := w.trace ++ [.createTemp name, .close name,
            .fprintln (name.toList ++ ['\n']), .writeFile name doc] ++
            .preview name :: rest } with hrm | hrm
      · rw [hrm] at hevs
        dsimp only at hevs
        rw [List.append_assoc] at hevs
        have he := List.append_cancel_left hevs
        subst he
        exact ⟨by simp, by simp [written, written_append, hwr], hsuf, by simp⟩
      · rw [hrm] at hevs
        dsimp only at hevs
        rw [List.append_assoc, List.append_assoc] at hevs
        have he := List.append_cancel_left hevs
        subst he
        exact ⟨by simp, by simp [written, written_append, hwr], hsuf, by simp⟩

/-- C8: the effects of any call of `run` extend the trace. When `run` returns
nil, what it wrote to `out` is one line, the path of the temporary file it
created followed by a newline, and that path ends in `.html`. Whenever
`preview` was called, on a path `f`, the effects begin with the creation and
closing of `f`, the line `f` on `out` and the write of the document, then the
call of `preview`, which is the only one. And whenever the input was read, the
document rendered and the temporary file created and closed, that line is
what `run` wrote to `out`; if the write succeeds too, `run` returns nil when
`skipPreview` is set and otherwise calls `preview` on that path and returns
its result. -/
theorem run_reports_path (h : Host) (filename tFname : String) (skipPreview : Bool)
    (w : World) :
    ∃ evs, (run h filename tFname skipPreview w).2.trace = w.trace ++ evs ∧
      ((run h filename tFname skipPreview w).1 = none →
        ∃ name, Event.createTemp name ∈ evs ∧ written evs = name.toList ++ ['\n'] ∧
          ".html".toList <:+ name.toList) ∧
      (∀ f, Event.preview f ∈ evs →
        ∃ doc rest, evs = [.createTemp f, .close f, .fprintln (f.toList ++ ['\n']),
            .writeFile f doc, .preview f] ++ rest ∧
          ∀ g, Event.preview g ∉ rest) ∧
      (∀ input doc name w1, osReadFile h w filename = .ok input →
        parseContent h w input tFname filename = (doc, none) →
        ioutilTempFile h "" "mdp*.html" w = (.ok name, w1) →
        h.fault (.close name) = none →
          Event.createTemp name ∈ evs ∧ written evs = name.toList ++ ['\n'] ∧
          ".html".toList <:+ name.toList ∧
          (h.fault (.writeFile name) = none →
            (skipPreview = true → (run h filename tFname skipPreview w).1 = none) ∧
            (skipPreview = false → Event.preview name ∈ evs ∧
              (run h filename tFname skipPreview w).1 = (preview h name w).1))) := by
  obtain ⟨evs, hevs, hnil, hpv⟩ := run_trace_shape h filename tFname skipPreview w
  refine ⟨evs, hevs, hnil, hpv, ?_⟩
  intro input doc name w1 hread hparse htemp hclose
  exact run_staged h filename tFname skipPreview w w1 input doc name evs hevs hread hparse
    htemp hclose

set_option maxRecDepth 100000 in
theorem run_reports_path_witness :
    ∃ evs, (run linuxHost "notes.md" "" false world0).2.trace = world0.trace ++ evs ∧
      written evs = "/tmp/mdp1234.html\n".toList ∧
      Event.preview "/tmp/mdp1234.html" ∈ evs ∧
      (run linuxHost "notes.md" "" false world0).1 = none :=
  match run_reports_path linuxHost "notes.md" "" false world0 with
  | ⟨evs, hevs, _, _, hstaged⟩ =>
    have hs := hstaged "# Hello\n".toList
      (parseContent linuxHost world0 "# Hello\n".toList "" "notes.md").1 "/tmp/mdp1234.html"
      (ioutilTempFile linuxHost "" "mdp*.html" world0).2 rfl rfl rfl rfl
    ⟨evs, hevs, hs.2.1, ((hs.2.2.2 rfl).2 rfl).1, by decide⟩

/-- A user template whose run stops half way: the six bytes already in the
buffer are not returned. -/
theorem parseContent_broken_template :
    parseContent brokenTemplateHost world1 "# Hello\n".toList "page.tmpl" "notes.md" =
      ([], some "template: page.tmpl:1:9: can't evaluate field Author") ∧
    (brokenTemplateHost.executeFile "<html>\x7b\x7b .Author \x7d\x7d</html>".toList
        { Title := "Markdown Preview Tool", Body := "<h1>Hello</h1>\n".toList,
          FileName := "notes.md" }).1 = "<html>".toList := by
  exact ⟨rfl, rfl⟩


end Mdp
